import Mathlib

/-!
Shallow embedding of the LeadsManager grid data model, scoring engine and
sheet registry (React/TypeScript source), together with proofs about the
behaviour of the embedded operations.

Conventions used throughout:
* TypeScript arrays become `List`, cell values `String`, and JavaScript
  numbers become `ℚ` (all numbers that the modelled code manipulates are
  exact decimals or small integers; the arithmetic the claims are about
  is exact in binary64, except the sort-classification threshold
  `values.length * 0.7`, whose double-precision rounding is embedded
  bit-exactly by `jsGtTimesPoint7`).
* JavaScript objects used as string-keyed dictionaries become association
  lists `List (String × _)` with unique keys; `delete obj[k]` is filtering
  the key out, `obj[k]` is `List.lookup`.
* The JavaScript `x || d` idiom on an optional number (`undefined`, or a
  number, where both `undefined` and `0` are falsy) is `jsOrQ`.
-/

/-- JavaScript `x || d` where `x : number | undefined` holds an integer:
yields `d` when `x` is `undefined` or `0` (both falsy), otherwise `x`. -/
def jsOrZ (x : Option ℤ) (d : ℤ) : ℤ :=
  match x with
  | none => d
  | some v => if v = 0 then d else v

/-- JavaScript `Math.round`, on rationals: round half-up (toward +∞). -/
def jsMathRound (q : ℚ) : ℤ := ⌊q + 1 / 2⌋

/-- JavaScript `String.prototype.trim` (on the ASCII whitespace the data
model uses), defined character-wise so that it evaluates by `decide`. -/
def jsTrim (s : String) : String :=
  ⟨(((s.data.dropWhile Char.isWhitespace).reverse.dropWhile
      Char.isWhitespace).reverse)⟩

/-- The `TableData` interface: `{ headers: string[]; rows: string[][] }`. -/
structure TableData where
  headers : List String
  rows : List (List String)
deriving Repr, DecidableEq

/-- The grid state owned by `DataTable`: the `TableData` plus the
`columnWidths` state array. -/
structure GridState where
  headers : List String
  rows : List (List String)
  widths : List ℕ
deriving Repr, DecidableEq

/-! ## Scoring engine (`LeadScoringModal`, src/unnamed/part_003) -/

/-- The `IMPORTANCE_LEVELS` constant: five named tiers and their points. -/
def IMPORTANCE_LEVELS : List (String × ℤ) :=
  [("Very Important", 100), ("Important", 75), ("Normal", 50),
   ("A Little Important", 25), ("Not Important", 0)]

/-- The scoring-relevant state of `LeadScoringModal`: `includedColumns`,
`weights`, `subcategoryWeights` and `expandedColumn`.  Weights are carried
as integers: every weight the app stores is an integer (`parseInt` input
handling, the redistribution effect, and the `IMPORTANCE_LEVELS` points). -/
structure ScoringState where
  includedColumns : List String
  weights : List (String × ℤ)
  subcategoryWeights : List (String × List (String × ℤ))
  expandedColumn : String
deriving Repr, DecidableEq

/-- The `removeColumn` handler: filters the header out of
`includedColumns`, deletes its `weights` entry, resets `expandedColumn`
if it pointed at the header.  The source does not touch
`subcategoryWeights` here. -/
def removeColumn (st : ScoringState) (header : String) : ScoringState :=
  { includedColumns := st.includedColumns.filter (fun col => !(col == header))
    weights := st.weights.filter (fun p => !(p.1 == header))
    subcategoryWeights := st.subcategoryWeights
    expandedColumn := if st.expandedColumn == header then "" else st.expandedColumn }

/-- The weight-redistribution effect body (runs when `includedColumns`
changes and is non-empty): `equalWeight = Math.floor(100 / n)`, the
remainder `100 - equalWeight * n` goes to the column at index 0.
`Math.floor(100 / n)` agrees with exact rational division for every
`n ≥ 1` occurring here (the quotient is far from an integer boundary
relative to double-precision error), so it is embedded as integer
division. -/
def redistributeWeights (includedColumns : List String) : List (String × ℤ) :=
  let n := includedColumns.length
  let equalWeight : ℤ := 100 / (n : ℤ)
  let remainder : ℤ := 100 - equalWeight * n
  includedColumns.enum.map
    (fun p => (p.2, equalWeight + if p.1 = 0 then remainder else 0))

/-- The body of the `includedColumns.forEach` loop of `calculateRowScore`:
for a column found among the headers, a non-blank cell contributes
`(columnWeight / 100) * subcategoryWeight` to the running total, where
`columnWeight` is `weights[columnName] || 0` and `subcategoryWeight` is
`subcategoryWeights[columnName]?.[cellValue] || 50`; a missing column or
a blank cell contributes nothing. -/
def scoreStep (headers : List String) (st : ScoringState) (row : List String)
    (totalScore : ℚ) (columnName : String) : ℚ :=
  match headers.findIdx? (fun h => h == columnName) with
  | none => totalScore
  | some columnIndex =>
    let cellValue := row.getD columnIndex ""
    if jsTrim cellValue = "" then totalScore
    else
      let columnWeight := jsOrZ (st.weights.lookup columnName) 0
      let subcategoryWeight :=
        jsOrZ ((st.subcategoryWeights.lookup columnName).bind
          (fun m => m.lookup cellValue)) 50
      totalScore + (columnWeight : ℚ) / 100 * (subcategoryWeight : ℚ)

/-- The `calculateRowScore` function: run the loop over the included
columns starting at 0, then round via `Math.round(total * 100) / 100`. -/
def calculateRowScore (headers : List String) (st : ScoringState)
    (row : List String) : ℚ :=
  let total := st.includedColumns.foldl (scoreStep headers st row) 0
  (jsMathRound (total * 100) : ℚ) / 100

/-! ## Selection (`DataTable.selectAllRows`) -/

/-- The `selectAllRows` handler: if every row is selected (set size equals
row count) clear the selection, otherwise select every row index. -/
def selectAllRows (selectedRows : Finset ℕ) (rows : List (List String)) :
    Finset ℕ :=
  if selectedRows.card = rows.length then ∅ else Finset.range rows.length

/-! ## Sheet registry (`App.tsx`) -/

/-- The `Sheet` interface: `{ id: string; name: string; data: TableData | null }`. -/
structure Sheet where
  id : String
  name : String
  data : Option TableData
deriving Repr, DecidableEq

/-- The registry state of `App`: the sheet list and the active sheet id. -/
structure RegistryState where
  sheets : List Sheet
  activeSheetId : String
deriving Repr, DecidableEq

/-- JavaScript `parseInt(s)` (radix 10): skip leading whitespace, optional
sign, then a non-empty digit prefix; `none` models `NaN`. -/
def jsParseInt (s : String) : Option ℤ :=
  let cs := s.data.dropWhile Char.isWhitespace
  let signed : Bool × List Char :=
    match cs with
    | '-' :: rest => (true, rest)
    | '+' :: rest => (false, rest)
    | rest => (false, rest)
  let ds := signed.2.takeWhile Char.isDigit
  if ds.isEmpty then none
  else
    let v : ℤ := ds.foldl (fun acc c => 10 * acc + (c.toNat - '0'.toNat : ℕ)) 0
    some (if signed.1 then -v else v)

/-- The `addNewSheet` handler: the new id is one more than the largest
numeric-parseable existing id (or 1), the new sheet is appended and made
active. -/
def addNewSheet (st : RegistryState) : RegistryState :=
  let existingIds := st.sheets.filterMap (fun s => jsParseInt s.id)
  let newId : ℤ := match existingIds.max? with
    | some m => m + 1
    | none => 1
  let newSheet : Sheet := { id := toString newId, name := "Sheet " ++ toString newId, data := none }
  { sheets := st.sheets ++ [newSheet], activeSheetId := toString newId }

/-- The `renameSheet` handler. -/
def renameSheet (st : RegistryState) (id name : String) : RegistryState :=
  { st with
    sheets := st.sheets.map (fun sheet =>
      if sheet.id == id then { sheet with name := name } else sheet) }

/-- The `deleteSheet` handler: refused while at most one sheet exists;
otherwise the sheet is filtered out and, when it was the active one, the
first remaining sheet becomes active (the source reads
`remainingSheets[0].id`; the empty case cannot arise when ids are unique,
and is modelled as keeping the previous active id). -/
def deleteSheet (st : RegistryState) (id : String) : RegistryState :=
  if st.sheets.length ≤ 1 then st
  else
    let newSheets := st.sheets.filter (fun sheet => !(sheet.id == id))
    { sheets := newSheets
      activeSheetId :=
        if id == st.activeSheetId then
          match newSheets with
          | [] => st.activeSheetId
          | s :: _ => s.id
        else st.activeSheetId }

/-! ## Grid operations (`DataTable.tsx`) -/

/-- JavaScript `arr.splice(idx, 0, x)`: the start index is clamped to the
array length, then `x` is inserted there. -/
def jsSpliceInsert {α : Type} (idx : ℕ) (x : α) (l : List α) : List α :=
  l.insertIdx (min idx l.length) x

/-- The dnd-kit `arrayMove(l, i, j)`: remove the element at `i`, insert it
at `j` (splice semantics, so `j` is clamped); `i` is always a valid index
at the call sites (it comes from `findIndex` over the rendered headers). -/
def jsArrayMove {α : Type} (i j : ℕ) (l : List α) : List α :=
  match l.get? i with
  | some x => jsSpliceInsert j x (l.eraseIdx i)
  | none => l

/-- The `addColumn` handler: appends header `"Column {N+1}"`, an empty
cell to every row, and a default width. -/
def addColumn (g : GridState) : GridState :=
  { headers := g.headers ++ ["Column " ++ toString (g.headers.length + 1)]
    rows := g.rows.map (fun row => row ++ [""])
    widths := g.widths ++ [150] }

/-- The `addRow` handler: appends one row of empty strings, one per
header. -/
def addRow (g : GridState) : GridState :=
  { g with rows := g.rows ++ [List.replicate g.headers.length ""] }

/-- The `insertColumnLeft` handler: splices a new header, width and an
empty cell in every row at `columnIndex`. -/
def insertColumnLeft (g : GridState) (columnIndex : ℕ) : GridState :=
  { headers := jsSpliceInsert columnIndex
      ("Column " ++ toString (g.headers.length + 1)) g.headers
    widths := jsSpliceInsert columnIndex 150 g.widths
    rows := g.rows.map (fun row => jsSpliceInsert columnIndex "" row) }

/-- The `insertColumnRight` handler: like `insertColumnLeft` at
`columnIndex + 1`. -/
def insertColumnRight (g : GridState) (columnIndex : ℕ) : GridState :=
  { headers := jsSpliceInsert (columnIndex + 1)
      ("Column " ++ toString (g.headers.length + 1)) g.headers
    widths := jsSpliceInsert (columnIndex + 1) 150 g.widths
    rows := g.rows.map (fun row => jsSpliceInsert (columnIndex + 1) "" row) }

/-- The `deleteColumn` handler: refused while at most one column remains,
otherwise the index is filtered out of headers, widths and every row
(filtering an index out of an array is `eraseIdx`). -/
def deleteColumn (g : GridState) (columnIndex : ℕ) : GridState :=
  if g.headers.length ≤ 1 then g
  else
    { headers := g.headers.eraseIdx columnIndex
      widths := g.widths.eraseIdx columnIndex
      rows := g.rows.map (fun row => row.eraseIdx columnIndex) }

/-- The `deleteSelectedRows` handler: keeps the rows whose index is not
selected. -/
def deleteSelectedRows (g : GridState) (selectedRows : Finset ℕ) : GridState :=
  { g with rows := (g.rows.enum.filter (fun p => p.1 ∉ selectedRows)).map (fun p => p.2) }

/-- The `handleCellChange` handler: replaces one cell of one row. -/
def handleCellChange (g : GridState) (rowIndex colIndex : ℕ) (value : String) :
    GridState :=
  { g with rows := g.rows.set rowIndex ((g.rows.getD rowIndex []).set colIndex value) }

/-- The `handleHeaderChange` handler: replaces one header string. -/
def handleHeaderChange (g : GridState) (colIndex : ℕ) (value : String) :
    GridState :=
  { g with headers := g.headers.set colIndex value }

/-- The column reorder performed by `handleDragEnd`: `arrayMove` applied in
lock-step to headers, every row, and the widths. -/
def moveColumn (g : GridState) (oldIndex newIndex : ℕ) : GridState :=
  { headers := jsArrayMove oldIndex newIndex g.headers
    rows := g.rows.map (fun row => jsArrayMove oldIndex newIndex row)
    widths := jsArrayMove oldIndex newIndex g.widths }

/-! ## JavaScript number parsing (decimal fragment)

`isNumericColumn` calls `Number(val)` and `parseFloat(val)`, and the sort
comparator calls `parseFloat`.  These are embedded on the decimal-literal
fragment of JavaScript numeric strings (optional sign, digits with an
optional fraction part, optional well-formed exponent); the exotic forms
(`Infinity`, hex/octal/binary literals) do not matter for the tabular data
the claims quantify over. -/

/-- Digits to a natural number, most significant first. -/
def digitsToNat (ds : List Char) : ℕ :=
  ds.foldl (fun acc c => 10 * acc + (c.toNat - '0'.toNat)) 0

/-- Consume an optional leading sign; `true` means negative. -/
def takeNumSign : List Char → Bool × List Char
  | '-' :: rest => (true, rest)
  | '+' :: rest => (false, rest)
  | cs => (false, cs)

/-- Consume a well-formed exponent part `e`/`E`, optional sign, at least
one digit; `none` when the characters do not start a well-formed exponent
(in which case `parseFloat` leaves them unconsumed). -/
def takeExponent (cs : List Char) : Option (Bool × ℕ × List Char) :=
  match cs with
  | c :: rest =>
    if c = 'e' ∨ c = 'E' then
      let sgn := takeNumSign rest
      let ds := sgn.2.takeWhile Char.isDigit
      if ds.isEmpty then none
      else some (sgn.1, digitsToNat ds, sgn.2.drop ds.length)
    else none
  | [] => none

/-- Parse the longest decimal-literal prefix: value and remaining
characters, `none` when no prefix parses (JavaScript `NaN`). -/
def parseJsDecimal (cs : List Char) : Option (ℚ × List Char) :=
  let sgn := takeNumSign cs
  let ids := sgn.2.takeWhile Char.isDigit
  let afterInt := sgn.2.drop ids.length
  let mantissa : Option (ℚ × List Char) :=
    match afterInt with
    | '.' :: afterDot =>
      let fds := afterDot.takeWhile Char.isDigit
      if ids.isEmpty ∧ fds.isEmpty then none
      else some ((digitsToNat ids : ℚ) + (digitsToNat fds : ℚ) / (10 : ℚ) ^ fds.length,
        afterDot.drop fds.length)
    | rest => if ids.isEmpty then none else some ((digitsToNat ids : ℚ), rest)
  match mantissa with
  | none => none
  | some m =>
    match takeExponent m.2 with
    | some e =>
      let scaled := if e.1 then m.1 / (10 : ℚ) ^ e.2.1 else m.1 * (10 : ℚ) ^ e.2.1
      some ((if sgn.1 then -scaled else scaled), e.2.2)
    | none => some ((if sgn.1 then -m.1 else m.1), m.2)

/-- JavaScript `parseFloat`: skip leading whitespace, parse the longest
decimal prefix; `none` models `NaN`. -/
def jsParseFloat (s : String) : Option ℚ :=
  (parseJsDecimal (s.data.dropWhile Char.isWhitespace)).map (fun p => p.1)

/-- JavaScript `Number(s)` as an optional rational (`none` models `NaN`):
the whole trimmed string must be a decimal literal; the empty string is 0. -/
def jsNumber (s : String) : Option ℚ :=
  let t := (jsTrim s).data
  if t.isEmpty then some 0
  else
    match parseJsDecimal t with
    | some (q, []) => some q
    | _ => none

/-- JavaScript `x || 0` on an optional rational. -/
def jsOrQ (x : Option ℚ) (d : ℚ) : ℚ :=
  match x with
  | none => d
  | some v => if v = 0 then d else v

/-- JavaScript `String.prototype.toLowerCase` on the ASCII fragment. -/
def jsToLowerCase (s : String) : String := ⟨s.data.map Char.toLower⟩

/-- Floor of the base-2 logarithm, by structural recursion on a fuel
argument so that it evaluates inside the kernel; correct for every
`n < 2 ^ fuel`. -/
def log2Aux : ℕ → ℕ → ℕ
  | 0, _ => 0
  | fuel + 1, n => if 2 ≤ n then log2Aux fuel (n / 2) + 1 else 0

/-- Floor of the base-2 logarithm for `n < 2 ^ 128` (every value that
occurs here is below `2 ^ 84`). -/
def jsLog2 (n : ℕ) : ℕ := log2Aux 128 n

/-- Round `N / d` to the nearest integer, ties to even — the rounding
step of an IEEE binary64 multiplication whose exact significand is
`N / d`. -/
def rneDiv (N d : ℕ) : ℕ :=
  let base := N / d
  let t := N % d
  if 2 * t < d then base
  else if d < 2 * t then base + 1
  else if base % 2 = 0 then base else base + 1

/-- The JavaScript comparison `k > n * 0.7` on IEEE binary64 doubles, for
exact integers `k` and `n` (both far below `2 ^ 53`, hence exactly
representable).  The literal `0.7` is the double `3152519739159347 / 2 ^ 52`,
so the exact product is `N / 2 ^ 52` with `N = n * 3152519739159347`; when
`N` needs more than 53 significand bits the product is rounded to nearest,
ties to even.  This rounding matters: for example `90 * 0.7` rounds just
below 63, so `63 > 90 * 0.7` holds on doubles although 63 is exactly 70%
of 90. -/
def jsGtTimesPoint7 (k n : ℕ) : Bool :=
  if n = 0 then decide (0 < k)
  else
    let N := n * 3152519739159347
    let s := jsLog2 N
    if s ≤ 52 then decide (N < k * 2 ^ 52)
    else decide (rneDiv N (2 ^ (s - 52)) * 2 ^ (s - 52) < k * 2 ^ 52)

/-- The `isNumericColumn` helper: among the non-blank values of the
column, the count satisfying `!isNaN(Number(val)) && !isNaN(parseFloat(val))`
must exceed `values.length * 0.7`, a double-precision product — embedded
exactly by `jsGtTimesPoint7`. -/
def isNumericColumn (rows : List (List String)) (columnIndex : ℕ) : Bool :=
  let values := (rows.map (fun row => row.getD columnIndex "")).filter
    (fun val => !(val == "") && !(jsTrim val == ""))
  if values.length = 0 then false
  else
    let numericValues := values.filter
      (fun val => (jsNumber val).isSome && (jsParseFloat val).isSome)
    jsGtTimesPoint7 numericValues.length values.length

/-- Sort direction. -/
inductive SortDirection
  | asc
  | desc
deriving Repr, DecidableEq

/-- The sort comparator of `sortColumn`, as the boolean relation
`comparator(a, b) ≤ 0` (the form usable by a stable sort): numeric columns
compare `parseFloat(value) || 0`, other columns compare the lowercased
strings (the JavaScript relational operators compare strings
lexicographically by code unit, which is the lexicographic order on the
character lists). -/
def sortLe (isNumeric : Bool) (direction : SortDirection) (columnIndex : ℕ)
    (a b : List String) : Bool :=
  let aValue := a.getD columnIndex ""
  let bValue := b.getD columnIndex ""
  if isNumeric then
    let aNum := jsOrQ (jsParseFloat aValue) 0
    let bNum := jsOrQ (jsParseFloat bValue) 0
    match direction with
    | .asc => decide (aNum ≤ bNum)
    | .desc => decide (bNum ≤ aNum)
  else
    let aStr := jsToLowerCase aValue
    let bStr := jsToLowerCase bValue
    match direction with
    | .asc => decide (aStr.data ≤ bStr.data)
    | .desc => decide (bStr.data ≤ aStr.data)

/-- The `sortColumn` handler: classify the column, then sort the rows with
the comparator.  `Array.prototype.sort` is required to be stable
(ECMAScript 2019), which `List.mergeSort` models. -/
def sortColumn (g : GridState) (columnIndex : ℕ) (direction : SortDirection) :
    GridState :=
  let isNumeric := isNumericColumn g.rows columnIndex
  { g with rows := g.rows.mergeSort (sortLe isNumeric direction columnIndex) }

/-- JavaScript `Number.prototype.toString` restricted to values with at
most two decimal places (every value `handleApplyScoreToData` renders has
been rounded to two places): shortest decimal form, no trailing zeros. -/
def jsNumToString (q : ℚ) : String :=
  let sign := if q < 0 then "-" else ""
  let n := (|q| * 100).floor.toNat
  let ip := n / 100
  let cents := n % 100
  if cents = 0 then sign ++ toString ip
  else if cents % 10 = 0 then sign ++ toString ip ++ "." ++ toString (cents / 10)
  else sign ++ toString ip ++ "." ++ (if cents < 10 then "0" else "") ++ toString cents

/-- The `handleApplyScoreToData` handler (post-guard data transformation):
reuse the `"Lead Score"` column when it exists, otherwise append it; every
row is padded up to the new header count before the score is written. -/
def handleApplyScoreToData (data : TableData) (st : ScoringState) : TableData :=
  let found := data.headers.findIdx? (fun h => h == "Lead Score")
  let newHeaders := match found with
    | some _ => data.headers
    | none => data.headers ++ ["Lead Score"]
  let scoreColumnIndex := match found with
    | some i => i
    | none => newHeaders.length - 1
  let newRows := data.rows.map (fun row =>
    let padded := row ++ List.replicate (newHeaders.length - row.length) ""
    padded.set scoreColumnIndex (jsNumToString (calculateRowScore data.headers st row)))
  { headers := newHeaders, rows := newRows }

example : calculateRowScore ["A", "B"]
    ⟨["A", "B"], [("A", 60), ("B", 40)], [("A", [("X", 100)]), ("B", [("Y", 50)])], ""⟩
    ["X", "Y"] = 80 := by
  simp +decide [calculateRowScore, scoreStep, jsOrZ, jsTrim, List.lookup,
    List.findIdx?]
  norm_num [jsMathRound]

/-! ## C5 -/

/-- One structural operation of the grid, bundling every mutation handler
of `DataTable` plus the scoring engine's apply-to-data commit. -/
inductive GridOp where
  | addCol : GridOp
  | insertLeft (i : ℕ) : GridOp
  | insertRight (i : ℕ) : GridOp
  | deleteCol (i : ℕ) : GridOp
  | addR : GridOp
  | deleteRows (sel : Finset ℕ) : GridOp
  | moveCol (i j : ℕ) : GridOp
  | sortCol (i : ℕ) (d : SortDirection) : GridOp
  | setCell (r c : ℕ) (v : String) : GridOp
  | setHeader (c : ℕ) (v : String) : GridOp
  | applyScore (st : ScoringState) : GridOp

/-- Dispatch a structural operation to the corresponding handler. -/
def applyGridOp (op : GridOp) (g : GridState) : GridState :=
  match op with
  | .addCol => addColumn g
  | .insertLeft i => insertColumnLeft g i
  | .insertRight i => insertColumnRight g i
  | .deleteCol i => deleteColumn g i
  | .addR => addRow g
  | .deleteRows sel => deleteSelectedRows g sel
  | .moveCol i j => moveColumn g i j
  | .sortCol i d => sortColumn g i d
  | .setCell r c v => handleCellChange g r c v
  | .setHeader c v => handleHeaderChange g c v
  | .applyScore st =>
    let t := handleApplyScoreToData ⟨g.headers, g.rows⟩ st
    { g with headers := t.headers, rows := t.rows }

/-- Invariant I2: every row is exactly as long as the header list. -/
def RowColInvariant (g : GridState) : Prop :=
  ∀ row ∈ g.rows, row.length = g.headers.length

instance (g : GridState) : Decidable (RowColInvariant g) := by
  unfold RowColInvariant
  infer_instance

/-- A splice-insert always lengthens the list by one (the start index is
clamped). -/
theorem length_jsSpliceInsert {α : Type} (idx : ℕ) (x : α) (l : List α) :
    (jsSpliceInsert idx x l).length = l.length + 1 :=
  List.length_insertIdx _ _ (Nat.min_le_right _ _)

/-- `arrayMove` preserves the length. -/
theorem length_jsArrayMove {α : Type} (i j : ℕ) (l : List α) :
    (jsArrayMove i j l).length = l.length := by
  unfold jsArrayMove
  cases hg : l.get? i with
  | none => rfl
  | some x =>
    have hi : i < l.length := by
      by_contra hlt
      rw [List.get?_eq_none.mpr (by omega)] at hg
      exact absurd hg (by simp)
    rw [length_jsSpliceInsert, List.length_eraseIdx, if_pos hi]
    omega

/-- C5: every structural operation (add/insert/delete column, add row,
delete rows, move column, sort, cell edit, header edit, apply score to
data) preserves Invariant I2: each row keeps exactly one cell per
header. -/
theorem gridOp_preserves_invariant (op : GridOp) (g : GridState)
    (h : RowColInvariant g) : RowColInvariant (applyGridOp op g) := by
  cases op with
  | addCol =>
    intro row hrow
    simp only [applyGridOp, addColumn] at hrow ⊢
    obtain ⟨r, hr, rfl⟩ := List.mem_map.mp hrow
    simp [h r hr]
  | insertLeft i =>
    intro row hrow
    simp only [applyGridOp, insertColumnLeft] at hrow ⊢
    obtain ⟨r, hr, rfl⟩ := List.mem_map.mp hrow
    rw [length_jsSpliceInsert, length_jsSpliceInsert, h r hr]
  | insertRight i =>
    intro row hrow
    simp only [applyGridOp, insertColumnRight] at hrow ⊢
    obtain ⟨r, hr, rfl⟩ := List.mem_map.mp hrow
    rw [length_jsSpliceInsert, length_jsSpliceInsert, h r hr]
  | deleteCol i =>
    intro row hrow
    simp only [applyGridOp, deleteColumn] at hrow ⊢
    by_cases hle : g.headers.length ≤ 1
    · rw [if_pos hle] at hrow ⊢
      exact h row hrow
    · rw [if_neg hle] at hrow ⊢
      obtain ⟨r, hr, rfl⟩ := List.mem_map.mp hrow
      rw [List.length_eraseIdx, List.length_eraseIdx, h r hr]
  | addR =>
    intro row hrow
    simp only [applyGridOp, addRow] at hrow ⊢
    rcases List.mem_append.mp hrow with hmem | hmem
    · exact h row hmem
    · rw [List.mem_singleton.mp hmem]
      simp
  | deleteRows sel =>
    intro row hrow
    simp only [applyGridOp, deleteSelectedRows] at hrow ⊢
    obtain ⟨p, hp, rfl⟩ := List.mem_map.mp hrow
    have hpe : p ∈ g.rows.enum := List.mem_of_mem_filter hp
    have hp2 := List.mem_enum_iff_getElem?.mp hpe
    exact h p.2 (List.getElem?_mem hp2)
  | moveCol i j =>
    intro row hrow
    simp only [applyGridOp, moveColumn] at hrow ⊢
    obtain ⟨r, hr, rfl⟩ := List.mem_map.mp hrow
    rw [length_jsArrayMove, length_jsArrayMove, h r hr]
  | sortCol i d =>
    intro row hrow
    simp only [applyGridOp, sortColumn] at hrow ⊢
    exact h row (List.mem_mergeSort.mp hrow)
  | setCell r c v =>
    intro row hrow
    simp only [applyGridOp, handleCellChange] at hrow ⊢
    by_cases hr : r < g.rows.length
    · rcases List.mem_or_eq_of_mem_set hrow with hmem | rfl
      · exact h row hmem
      · rw [List.length_set]
        have : g.rows.getD r [] = g.rows.get ⟨r, hr⟩ := by
          simp [List.getD_eq_getElem?_getD, List.getElem?_eq_getElem hr]
        rw [this]
        exact h _ (List.get_mem _ _ _)
    · rw [List.set_eq_of_length_le (by omega)] at hrow
      exact h row hrow
  | setHeader c v =>
    intro row hrow
    simp only [applyGridOp, handleHeaderChange] at hrow ⊢
    rw [List.length_set]
    exact h row hrow
  | applyScore st =>
    intro row hrow
    simp only [applyGridOp, handleApplyScoreToData] at hrow ⊢
    cases hfind : g.headers.findIdx? (fun hd => hd == "Lead Score") with
    | some i =>
      rw [hfind] at hrow
      dsimp only at hrow ⊢
      obtain ⟨r, hr, rfl⟩ := List.mem_map.mp hrow
      rw [List.length_set, List.length_append, List.length_replicate, h r hr]
      omega
    | none =>
      rw [hfind] at hrow
      dsimp only at hrow ⊢
      obtain ⟨r, hr, rfl⟩ := List.mem_map.mp hrow
      rw [List.length_set, List.length_append, List.length_replicate, h r hr]
      simp only [List.length_append, List.length_singleton]
      omega

/-- C5 witness: inserting a column left of index 0 preserves the
invariant on a concrete two-by-two grid. -/
theorem gridOp_preserves_invariant_witness :
    RowColInvariant (applyGridOp (GridOp.insertLeft 0)
      (GridState.mk ["A", "B"] [["1", "2"], ["3", "4"]] [150, 150])) :=
  gridOp_preserves_invariant (GridOp.insertLeft 0)
    (GridState.mk ["A", "B"] [["1", "2"], ["3", "4"]] [150, 150]) (by decide)

/-! ## C6 -/

/-- Re-inserting the erased element at its own index restores the list. -/
theorem insertIdx_get_eraseIdx {α : Type} :
    ∀ (l : List α) (n : ℕ) (h : n < l.length),
      (l.eraseIdx n).insertIdx n (l.get ⟨n, h⟩) = l := by
  intro l
  induction l with
  | nil => intro n h; simp at h
  | cons a t ih =>
    intro n h
    cases n with
    | zero => rfl
    | succ n =>
      have h' : n < t.length := by simpa using h
      show a :: (t.eraseIdx n).insertIdx n (t.get ⟨n, h'⟩) = a :: t
      exact congrArg (a :: ·) (ih n h')

/-- Moving an element from `i` to `j` and back restores the list when
both indices are in range. -/
theorem jsArrayMove_inverse {α : Type} (l : List α) (i j : ℕ)
    (hi : i < l.length) (hj : j < l.length) :
    jsArrayMove j i (jsArrayMove i j l) = l := by
  have hgi : l.get? i = some (l.get ⟨i, hi⟩) := List.get?_eq_get hi
  have he : (l.eraseIdx i).length = l.length - 1 := by
    rw [List.length_eraseIdx, if_pos hi]
  have hje : j ≤ (l.eraseIdx i).length := by omega
  have hie : i ≤ (l.eraseIdx i).length := by omega
  have hmin : min j (l.eraseIdx i).length = j := Nat.min_eq_left hje
  have hstep : jsArrayMove i j l =
      (l.eraseIdx i).insertIdx j (l.get ⟨i, hi⟩) := by
    simp only [jsArrayMove, hgi, jsSpliceInsert, hmin]
  rw [hstep]
  have hlen : ((l.eraseIdx i).insertIdx j (l.get ⟨i, hi⟩)).length = l.length := by
    rw [List.length_insertIdx _ _ hje]
    omega
  have hjlt : j < ((l.eraseIdx i).insertIdx j (l.get ⟨i, hi⟩)).length := by omega
  have hgj : ((l.eraseIdx i).insertIdx j (l.get ⟨i, hi⟩)).get? j =
      some (l.get ⟨i, hi⟩) := by
    rw [List.get?_eq_getElem?, List.getElem?_eq_getElem hjlt]
    exact congrArg some (List.getElem_insertIdx_self _ _ _ hje)
  simp only [jsArrayMove, hgj, jsSpliceInsert, List.eraseIdx_insertIdx,
    Nat.min_eq_left hie]
  exact insertIdx_get_eraseIdx l i hi

/-- C6: on a grid whose headers are pairwise distinct (with one cell per
header in every row and one width per header), `moveColumn i j` followed
by `moveColumn j i` restores the original headers, rows and widths. -/
theorem moveColumn_inverse (g : GridState) (i j : ℕ) (hnd : g.headers.Nodup)
    (hi : i < g.headers.length) (hj : j < g.headers.length)
    (hrows : RowColInvariant g) (hw : g.widths.length = g.headers.length) :
    moveColumn (moveColumn g i j) j i = g := by
  obtain ⟨headers, rows, widths⟩ := g
  simp only [moveColumn, List.map_map, GridState.mk.injEq]
  refine ⟨jsArrayMove_inverse _ i j hi hj, ?_,
    jsArrayMove_inverse _ i j (by rw [hw]; exact hi) (by rw [hw]; exact hj)⟩
  calc rows.map (jsArrayMove j i ∘ jsArrayMove i j)
      = rows.map id :=
        List.map_congr_left (fun r hr =>
          jsArrayMove_inverse r i j (by rw [hrows r hr]; exact hi)
            (by rw [hrows r hr]; exact hj))
    _ = rows := List.map_id rows

/-- C6 witness: a concrete two-column move and its inverse. -/
theorem moveColumn_inverse_witness :
    moveColumn (moveColumn (GridState.mk ["A", "B"] [["1", "2"]] [150, 160]) 0 1)
      1 0 = GridState.mk ["A", "B"] [["1", "2"]] [150, 160] :=
  moveColumn_inverse (GridState.mk ["A", "B"] [["1", "2"]] [150, 160]) 0 1
    (by decide) (by decide) (by decide) (by decide) rfl

/-! ## C9 -/

/-- Filtering one id out of a sheet list with duplicate-free ids removes
at most one element. -/
theorem length_filter_id_ge (l : List Sheet) (idv : String)
    (hnd : (l.map Sheet.id).Nodup) :
    l.length - 1 ≤ (l.filter (fun s => !(s.id == idv))).length := by
  induction l with
  | nil => simp
  | cons s t ih =>
    have hmap : List.map Sheet.id (s :: t) = s.id :: t.map Sheet.id := rfl
    rw [hmap] at hnd
    have hhead := (List.nodup_cons.mp hnd).1
    have htail := (List.nodup_cons.mp hnd).2
    by_cases h : s.id = idv
    · have hall : t.filter (fun s => !(s.id == idv)) = t := by
        refine List.filter_eq_self.mpr (fun a ha => ?_)
        have hne : a.id ≠ idv := by
          intro hEq
          exact hhead (by simpa [hEq, h] using List.mem_map_of_mem Sheet.id ha)
        simp [hne]
      have hb : (!(s.id == idv)) = false := by simp [h]
      rw [List.filter_cons, hb]
      simp [hall]
    · have hb : (!(s.id == idv)) = true := by simp [h]
      rw [List.filter_cons, hb]
      simp only [if_pos, List.length_cons]
      have := ih htail
      omega

/-- C9: `deleteSheet` is refused (registry unchanged) while at most one
sheet remains; every registry operation preserves `sheets.length ≥ 1`;
and deleting the active sheet re-activates the first remaining sheet in
list order. -/
theorem deleteSheet_spec (st : RegistryState) (idv : String)
    (hnodup : (st.sheets.map Sheet.id).Nodup) :
    (st.sheets.length ≤ 1 → deleteSheet st idv = st) ∧
      (1 ≤ st.sheets.length →
        1 ≤ (deleteSheet st idv).sheets.length ∧
          1 ≤ (addNewSheet st).sheets.length ∧
          ∀ i nm, 1 ≤ (renameSheet st i nm).sheets.length) ∧
      (2 ≤ st.sheets.length → idv = st.activeSheetId →
        (deleteSheet st idv).sheets.head?.map Sheet.id =
          some (deleteSheet st idv).activeSheetId) := by
  refine ⟨fun h => by simp [deleteSheet, h], fun h => ?_, fun h2 hact => ?_⟩
  · refine ⟨?_, by simp [addNewSheet], fun i nm => by simpa [renameSheet] using h⟩
    by_cases hle : st.sheets.length ≤ 1
    · simpa [deleteSheet, hle] using h
    · have := length_filter_id_ge st.sheets idv hnodup
      simp only [deleteSheet, if_neg hle]
      omega
  · have hle : ¬ st.sheets.length ≤ 1 := by omega
    have hlen : 1 ≤ (st.sheets.filter (fun s => !(s.id == idv))).length := by
      have := length_filter_id_ge st.sheets idv hnodup
      omega
    have hbeq : (idv == st.activeSheetId) = true := by simp [hact]
    simp only [deleteSheet, if_neg hle, hbeq, if_pos]
    cases hfil : st.sheets.filter (fun s => !(s.id == idv)) with
    | nil => rw [hfil] at hlen; simp at hlen
    | cons s rest => simp

/-- C9 witness: two sheets, the active one deleted; afterwards one sheet
remains and the remaining sheet is active. -/
theorem deleteSheet_spec_witness :
    1 ≤ (deleteSheet ⟨[⟨"1", "Sheet 1", none⟩, ⟨"2", "Sheet 2", none⟩], "1"⟩
        "1").sheets.length ∧
      (deleteSheet ⟨[⟨"1", "Sheet 1", none⟩, ⟨"2", "Sheet 2", none⟩], "1"⟩
          "1").sheets.head?.map Sheet.id =
        some (deleteSheet ⟨[⟨"1", "Sheet 1", none⟩, ⟨"2", "Sheet 2", none⟩], "1"⟩
          "1").activeSheetId :=
  ⟨((deleteSheet_spec ⟨[⟨"1", "Sheet 1", none⟩, ⟨"2", "Sheet 2", none⟩], "1"⟩
      "1" (by decide)).2.1 (by decide)).1,
   (deleteSheet_spec ⟨[⟨"1", "Sheet 1", none⟩, ⟨"2", "Sheet 2", none⟩], "1"⟩
      "1" (by decide)).2.2 (by decide) rfl⟩

/-! ## Helper lemmas -/

/-- Looking a key up after filtering that key out of an association list
always fails. -/
theorem lookup_filter_not_beq {β : Type} (l : List (String × β)) (k : String) :
    (l.filter (fun p => !(p.1 == k))).lookup k = none := by
  induction l with
  | nil => rfl
  | cons p t ih =>
    by_cases h : p.1 = k
    · have hb : (!(p.1 == k)) = false := by simp [h]
      rw [List.filter_cons, hb]
      simpa using ih
    · have hb : (!(p.1 == k)) = true := by simp [h]
      have hk : (k == p.1) = false := by simp [Ne.symm h]
      rw [List.filter_cons, hb]
      simp only [if_pos]
      rw [List.lookup_cons, hk]
      exact ih

/-! ## C4 -/

/-- The comparator relation is total. -/
theorem sortLe_total (isNum : Bool) (d : SortDirection) (ci : ℕ)
    (a b : List String) :
    (sortLe isNum d ci a b || sortLe isNum d ci b a) = true := by
  unfold sortLe
  cases isNum <;> cases d <;> simp <;> exact le_total _ _

/-- The comparator relation is transitive. -/
theorem sortLe_trans (isNum : Bool) (d : SortDirection) (ci : ℕ)
    (a b c : List String) :
    sortLe isNum d ci a b = true → sortLe isNum d ci b c = true →
      sortLe isNum d ci a c = true := by
  unfold sortLe
  cases isNum <;> cases d <;> simp <;> intro h1 h2 <;>
    first
      | exact le_trans h1 h2
      | exact le_trans h2 h1

/-- Correctness of the fuelled base-2 logarithm up to `2 ^ fuel`. -/
theorem log2Aux_spec : ∀ (fuel n : ℕ), 1 ≤ n → n < 2 ^ fuel →
    2 ^ log2Aux fuel n ≤ n ∧ n < 2 ^ (log2Aux fuel n + 1) := by
  intro fuel
  induction fuel with
  | zero =>
    intro n h1 h2
    simp only [pow_zero] at h2
    omega
  | succ fuel ih =>
    intro n h1 h2
    by_cases h : 2 ≤ n
    · have heq : log2Aux (fuel + 1) n = log2Aux fuel (n / 2) + 1 := by
        simp [log2Aux, h]
      have hhalf : n / 2 < 2 ^ fuel := by
        have hp : 2 ^ (fuel + 1) = 2 ^ fuel * 2 := pow_succ 2 fuel
        omega
      obtain ⟨ih1, ih2⟩ := ih (n / 2) (by omega) hhalf
      rw [heq]
      have hp1 : 2 ^ (log2Aux fuel (n / 2) + 1) =
          2 ^ log2Aux fuel (n / 2) * 2 := pow_succ 2 _
      have hp2 : 2 ^ (log2Aux fuel (n / 2) + 1 + 1) =
          2 ^ log2Aux fuel (n / 2) * 2 * 2 := by
        rw [pow_succ, pow_succ]
      rw [hp1] at ih2
      rw [hp1, hp2]
      omega
    · have heq : log2Aux (fuel + 1) n = 0 := by simp [log2Aux, h]
      rw [heq]
      simp only [pow_zero, pow_one]
      omega

/-- Round-to-nearest never moves the value by more than half a step. -/
theorem rneDiv_bounds (N d : ℕ) (hd : 0 < d) :
    2 * (rneDiv N d * d) ≤ 2 * N + d ∧ 2 * N ≤ 2 * (rneDiv N d * d) + d := by
  unfold rneDiv
  have hmod : N / d * d + N % d = N := by
    rw [Nat.mul_comm]
    exact Nat.div_add_mod N d
  have hlt : N % d < d := Nat.mod_lt N hd
  have hd1 : (N / d + 1) * d = N / d * d + d := by ring
  by_cases h1 : 2 * (N % d) < d
  · rw [if_pos h1]
    omega
  · rw [if_neg h1]
    by_cases h2 : d < 2 * (N % d)
    · rw [if_pos h2]
      rw [hd1]
      omega
    · rw [if_neg h2]
      by_cases h3 : (N / d) % 2 = 0
      · rw [if_pos h3]
        omega
      · rw [if_neg h3]
        rw [hd1]
        omega

/-- Characterisation of the double comparison `k > n * 0.7` for every
count a JavaScript array can have (`n < 2 ^ 32`): strictly more than 70%
always compares greater, and comparing greater implies at least 70% —
the only divergence from the exact 70% rule is at boundary counts where
the rounded product lies just below the integer `7n/10`. -/
theorem jsGtTimesPoint7_spec (k n : ℕ) (hn : n < 2 ^ 32) :
    (7 * n < 10 * k → jsGtTimesPoint7 k n = true) ∧
      (jsGtTimesPoint7 k n = true → 7 * n ≤ 10 * k) := by
  have hp32 : (2 : ℕ) ^ 32 = 4294967296 := by norm_num
  have hp52 : (2 : ℕ) ^ 52 = 4503599627370496 := by norm_num
  unfold jsGtTimesPoint7
  by_cases h0 : n = 0
  · rw [if_pos h0]
    subst h0
    constructor <;> intro h <;> simp_all
  · rw [if_neg h0]
    have hN1 : 1 ≤ n * 3152519739159347 := by
      have : 1 ≤ n := by omega
      omega
    have hN128 : n * 3152519739159347 < 2 ^ 128 := by
      have hbig : (2 : ℕ) ^ 128 = 340282366920938463463374607431768211456 := by
        norm_num
      omega
    obtain ⟨hs1, hs2⟩ :=
      log2Aux_spec 128 (n * 3152519739159347) hN1 hN128
    by_cases hs52 : jsLog2 (n * 3152519739159347) ≤ 52
    · rw [if_pos hs52]
      constructor
      · intro h7
        simp only [decide_eq_true_eq]
        omega
      · intro ht
        simp only [decide_eq_true_eq] at ht
        omega
    · rw [if_neg hs52]
      have hdpos : 0 < 2 ^ (jsLog2 (n * 3152519739159347) - 52) :=
        Nat.pos_pow_of_pos _ (by omega)
      obtain ⟨hr1, hr2⟩ :=
        rneDiv_bounds (n * 3152519739159347)
          (2 ^ (jsLog2 (n * 3152519739159347) - 52)) hdpos
      have hds : 2 ^ (jsLog2 (n * 3152519739159347) - 52) * 2 ^ 52 =
          2 ^ jsLog2 (n * 3152519739159347) := by
        rw [← pow_add]
        congr 1
        omega
      have hdbound : 2 ^ (jsLog2 (n * 3152519739159347) - 52) < 4294967296 := by
        have hle : 2 ^ (jsLog2 (n * 3152519739159347) - 52) * 4503599627370496 ≤
            n * 3152519739159347 := by
          rw [← hp52, hds]
          exact hs1
        omega
      constructor
      · intro h7
        simp only [decide_eq_true_eq]
        omega
      · intro ht
        simp only [decide_eq_true_eq] at ht
        omega

/-- C4 counterexample: a 90-row column with 63 numeric and 27 non-numeric
values has exactly 70% numeric values — not strictly more — yet
`isNumericColumn` classifies it numeric, because the double product
`90 * 0.7` rounds to `62.99999999999999…`, strictly below 63.  So the
claimed "numeric iff strictly more than 70% parse" is false of the
program. -/
theorem sortColumn_classification_counterexample :
    ((((List.replicate 63 (["1"] : List String)) ++
          List.replicate 27 ["x"]).map (fun row => row.getD 0 "")).filter
        (fun val => !(val == "") && !(jsTrim val == ""))).length = 90 ∧
      (((((List.replicate 63 (["1"] : List String)) ++
            List.replicate 27 ["x"]).map (fun row => row.getD 0 "")).filter
          (fun val => !(val == "") && !(jsTrim val == ""))).filter
        (fun val => (jsNumber val).isSome && (jsParseFloat val).isSome)).length =
        63 ∧
      ¬ (7 * 90 < 10 * 63) ∧
      isNumericColumn
        ((List.replicate 63 (["1"] : List String)) ++ List.replicate 27 ["x"])
        0 = true :=
  ⟨by decide, by decide, by decide, by decide⟩

/-- C4 (amended): `sortColumn` leaves headers and widths untouched; the
new rows are a permutation of the old ones, sorted with respect to the
comparator (by parsed numeric value with blank/unparseable as 0 on a
numeric column, case-insensitively by string otherwise); any two rows the
comparator cannot distinguish (equal keys) keep their original relative
order; and — the classification being the double-precision comparison
`numericCount > totalCount * 0.7` — a column with strictly more than 70%
parse-passing non-blank values is always classified numeric, and a
numeric classification implies at least 70% (at a few boundary counts,
such as 90, 170 or 180 non-blank values, exactly 70% already classifies
as numeric because the double product rounds below the exact boundary). -/
theorem sortColumn_spec (g : GridState) (ci : ℕ) (d : SortDirection) :
    ((sortColumn g ci d).headers = g.headers ∧
        (sortColumn g ci d).widths = g.widths) ∧
      (sortColumn g ci d).rows.Perm g.rows ∧
      (sortColumn g ci d).rows.Pairwise
        (fun a b => sortLe (isNumericColumn g.rows ci) d ci a b = true) ∧
      (∀ r1 r2, sortLe (isNumericColumn g.rows ci) d ci r1 r2 = true →
        sortLe (isNumericColumn g.rows ci) d ci r2 r1 = true →
        List.Sublist [r1, r2] g.rows →
        List.Sublist [r1, r2] (sortColumn g ci d).rows) ∧
      (g.rows.length < 2 ^ 32 →
        (7 * ((g.rows.map (fun row => row.getD ci "")).filter
              (fun val => !(val == "") && !(jsTrim val == ""))).length <
            10 * (((g.rows.map (fun row => row.getD ci "")).filter
                (fun val => !(val == "") && !(jsTrim val == ""))).filter
              (fun val => (jsNumber val).isSome && (jsParseFloat val).isSome)).length →
          isNumericColumn g.rows ci = true) ∧
        (isNumericColumn g.rows ci = true →
          7 * ((g.rows.map (fun row => row.getD ci "")).filter
              (fun val => !(val == "") && !(jsTrim val == ""))).length ≤
            10 * (((g.rows.map (fun row => row.getD ci "")).filter
                (fun val => !(val == "") && !(jsTrim val == ""))).filter
              (fun val => (jsNumber val).isSome && (jsParseFloat val).isSome)).length)) := by
  refine ⟨⟨rfl, rfl⟩, List.mergeSort_perm g.rows _, ?_, ?_, ?_⟩
  · exact List.sorted_mergeSort
      (fun a b c => sortLe_trans (isNumericColumn g.rows ci) d ci a b c)
      (fun a b => sortLe_total (isNumericColumn g.rows ci) d ci a b) g.rows
  · intro r1 r2 h12 _ hsub
    exact List.pair_sublist_mergeSort
      (fun a b c => sortLe_trans (isNumericColumn g.rows ci) d ci a b c)
      (fun a b => sortLe_total (isNumericColumn g.rows ci) d ci a b) h12 hsub
  · intro hlen
    have hbody : isNumericColumn g.rows ci =
        (if ((g.rows.map (fun row => row.getD ci "")).filter
            (fun val => !(val == "") && !(jsTrim val == ""))).length = 0 then false
         else jsGtTimesPoint7
            ((((g.rows.map (fun row => row.getD ci "")).filter
                (fun val => !(val == "") && !(jsTrim val == ""))).filter
              (fun val => (jsNumber val).isSome && (jsParseFloat val).isSome)).length)
            (((g.rows.map (fun row => row.getD ci "")).filter
              (fun val => !(val == "") && !(jsTrim val == ""))).length)) :=
      rfl
    have hn32 : (((g.rows.map (fun row => row.getD ci "")).filter
        (fun val => !(val == "") && !(jsTrim val == ""))).length) < 2 ^ 32 := by
      have h1 : (((g.rows.map (fun row => row.getD ci "")).filter
          (fun val => !(val == "") && !(jsTrim val == ""))).length) ≤
          (g.rows.map (fun row => row.getD ci "")).length :=
        List.length_filter_le _ _
      rw [List.length_map] at h1
      omega
    have hspec := jsGtTimesPoint7_spec
      ((((g.rows.map (fun row => row.getD ci "")).filter
          (fun val => !(val == "") && !(jsTrim val == ""))).filter
        (fun val => (jsNumber val).isSome && (jsParseFloat val).isSome)).length)
      (((g.rows.map (fun row => row.getD ci "")).filter
        (fun val => !(val == "") && !(jsTrim val == ""))).length) hn32
    have hkn : (((((g.rows.map (fun row => row.getD ci "")).filter
        (fun val => !(val == "") && !(jsTrim val == ""))).filter
        (fun val => (jsNumber val).isSome && (jsParseFloat val).isSome)).length) ≤
        (((g.rows.map (fun row => row.getD ci "")).filter
          (fun val => !(val == "") && !(jsTrim val == ""))).length)) :=
      List.length_filter_le _ _
    constructor
    · intro h7
      rw [hbody, if_neg (by omega)]
      exact hspec.1 h7
    · intro ht
      rw [hbody] at ht
      by_cases h0 : (((g.rows.map (fun row => row.getD ci "")).filter
          (fun val => !(val == "") && !(jsTrim val == ""))).length) = 0
      · rw [if_pos h0] at ht
        exact absurd ht (by simp)
      · rw [if_neg h0] at ht
        exact hspec.2 ht

/-- C4 witness: the comparator-order, stability and classification parts
at concrete inputs — two equal-keyed rows keep their relative order on a
non-numeric column, and a fully numeric two-row column is classified
numeric through the strictly-more-than-70% implication. -/
theorem sortColumn_spec_witness :
    List.Sublist [(["b"] : List String), ["b"]]
      (sortColumn (GridState.mk ["A"] [["b"], ["b"]] [150]) 0
        SortDirection.asc).rows ∧
      isNumericColumn [(["1"] : List String), ["2"]] 0 = true :=
  ⟨(sortColumn_spec (GridState.mk ["A"] [["b"], ["b"]] [150]) 0
      SortDirection.asc).2.2.2.1 ["b"] ["b"] (by decide) (by decide)
    (List.Sublist.refl _),
   ((sortColumn_spec (GridState.mk ["A"] [["1"], ["2"]] [150]) 0
      SortDirection.asc).2.2.2.2 (by decide)).1 (by decide)⟩

/-! ## C1 -/

/-- C1 (code-bug evidence): with column `"A"` at weight 100 and the cell
value `"X"` explicitly assigned the importance `0` ("Not Important"), the
code computes a row score of 50: `subcategoryWeights[c]?.[v] || 50`
treats the stored weight `0` as falsy and replaces it by the default 50,
while the specified formula yields `(100/100) * 0 = 0`. -/
theorem calculateRowScore_importance_zero_bug :
    calculateRowScore ["A"] ⟨["A"], [("A", 100)], [("A", [("X", 0)])], ""⟩
      ["X"] = 50 := by
  simp +decide [calculateRowScore, scoreStep, jsOrZ, jsTrim, List.lookup,
    List.findIdx?]
  norm_num [jsMathRound]

/-! ## C10 -/

/-- `x || 0` on an optional integer is just the value with default 0. -/
theorem jsOrZ_zero (x : Option ℤ) : jsOrZ x 0 = x.getD 0 := by
  cases x with
  | none => rfl
  | some v =>
    by_cases h : v = 0 <;> simp [jsOrZ, h]

/-- A successful association-list lookup exhibits a member pair. -/
theorem mem_of_lookup_eq_some {β : Type} {l : List (String × β)} {k : String}
    {b : β} (h : l.lookup k = some b) : (k, b) ∈ l := by
  obtain ⟨l₁, l₂, rfl, -⟩ := List.lookup_eq_some_iff.mp h
  simp

/-- One loop step never decreases the running total, and increases it by
at most the stored weight of the processed column (absent weights count
0), provided every assigned per-value importance lies in `[0, 100]`. -/
theorem scoreStep_bounds (headers : List String) (st : ScoringState)
    (row : List String) (c : String) (acc : ℚ)
    (hwc : 0 ≤ (st.weights.lookup c).getD 0 ∧ (st.weights.lookup c).getD 0 ≤ 100)
    (hsub : ∀ p ∈ st.subcategoryWeights, ∀ q ∈ p.2, 0 ≤ q.2 ∧ q.2 ≤ 100) :
    acc ≤ scoreStep headers st row acc c ∧
      scoreStep headers st row acc c ≤
        acc + (((st.weights.lookup c).getD 0 : ℤ) : ℚ) := by
  have hWcast : (0 : ℚ) ≤ (((st.weights.lookup c).getD 0 : ℤ) : ℚ) := by
    exact_mod_cast hwc.1
  unfold scoreStep
  cases hf : headers.findIdx? (fun h => h == c) with
  | none => exact ⟨le_refl acc, by linarith⟩
  | some ci =>
    dsimp only
    by_cases hb : jsTrim (row.getD ci "") = ""
    · rw [if_pos hb]
      exact ⟨le_refl acc, by linarith⟩
    · rw [if_neg hb]
      have hcw : jsOrZ (st.weights.lookup c) 0 = (st.weights.lookup c).getD 0 :=
        jsOrZ_zero _
      set sw := jsOrZ ((st.subcategoryWeights.lookup c).bind
        (fun m => m.lookup (row.getD ci ""))) 50 with hswdef
      have hswb : (0 : ℤ) ≤ sw ∧ sw ≤ 100 := by
        rw [hswdef]
        cases hob : (st.subcategoryWeights.lookup c).bind
            (fun m => m.lookup (row.getD ci "")) with
        | none => simp [jsOrZ]
        | some w =>
          obtain ⟨m, hm, hv⟩ := Option.bind_eq_some.mp hob
          have hw := hsub (c, m) (mem_of_lookup_eq_some hm)
            (_, w) (mem_of_lookup_eq_some hv)
          by_cases hz : w = 0
          · simp [jsOrZ, hz]
          · simp only [jsOrZ, if_neg hz]
            exact hw
      have hsw0 : (0 : ℚ) ≤ (sw : ℚ) := by exact_mod_cast hswb.1
      have hsw100 : (sw : ℚ) ≤ 100 := by exact_mod_cast hswb.2
      rw [hcw]
      constructor
      · have : (0 : ℚ) ≤ (((st.weights.lookup c).getD 0 : ℤ) : ℚ) / 100 * (sw : ℚ) := by
          positivity
        linarith
      · have hmul : (((st.weights.lookup c).getD 0 : ℤ) : ℚ) / 100 * (sw : ℚ) ≤
            (((st.weights.lookup c).getD 0 : ℤ) : ℚ) / 100 * 100 := by
          apply mul_le_mul_of_nonneg_left hsw100
          positivity
        have heq : (((st.weights.lookup c).getD 0 : ℤ) : ℚ) / 100 * 100 =
            (((st.weights.lookup c).getD 0 : ℤ) : ℚ) := by
          field_simp
        linarith

/-- Bounds for the whole accumulation loop, by induction over the
processed columns. -/
theorem score_fold_bounds (headers : List String) (st : ScoringState)
    (row : List String)
    (hsub : ∀ p ∈ st.subcategoryWeights, ∀ q ∈ p.2, 0 ≤ q.2 ∧ q.2 ≤ 100) :
    ∀ (cols : List String) (acc : ℚ),
      (∀ c ∈ cols, 0 ≤ (st.weights.lookup c).getD 0 ∧
        (st.weights.lookup c).getD 0 ≤ 100) →
      acc ≤ cols.foldl (scoreStep headers st row) acc ∧
        cols.foldl (scoreStep headers st row) acc ≤
          acc + (((cols.map (fun c => (st.weights.lookup c).getD 0)).sum : ℤ) : ℚ) := by
  intro cols
  induction cols with
  | nil => intro acc _; simp
  | cons c t ih =>
    intro acc hw
    have hstep := scoreStep_bounds headers st row c acc
      (hw c (List.mem_cons_self c t)) hsub
    have hrec := ih (scoreStep headers st row acc c)
      (fun x hx => hw x (List.mem_cons_of_mem c hx))
    rw [List.foldl_cons]
    constructor
    · exact le_trans hstep.1 hrec.1
    · have h2 := hrec.2
      rw [List.map_cons, List.sum_cons]
      push_cast at h2 ⊢
      linarith [hstep.2]

/-- C10: when every included column's stored weight lies in `[0, 100]`,
those weights sum to exactly 100, and every assigned per-value importance
lies in `[0, 100]`, the computed row score lies in `[0, 100]`. -/
theorem calculateRowScore_bounds (headers : List String) (st : ScoringState)
    (row : List String)
    (hw : ∀ c ∈ st.includedColumns, 0 ≤ (st.weights.lookup c).getD 0 ∧
      (st.weights.lookup c).getD 0 ≤ 100)
    (hsum : (st.includedColumns.map (fun c => (st.weights.lookup c).getD 0)).sum = 100)
    (hsub : ∀ p ∈ st.subcategoryWeights, ∀ q ∈ p.2, 0 ≤ q.2 ∧ q.2 ≤ 100) :
    0 ≤ calculateRowScore headers st row ∧
      calculateRowScore headers st row ≤ 100 := by
  have hfold := score_fold_bounds headers st row hsub st.includedColumns 0 hw
  rw [hsum] at hfold
  set total := st.includedColumns.foldl (scoreStep headers st row) 0 with htot
  have h0 : (0 : ℚ) ≤ total := by simpa using hfold.1
  have h100 : total ≤ 100 := by
    have h2 := hfold.2
    push_cast at h2
    linarith
  have hfl : (0 : ℤ) ≤ jsMathRound (total * 100) := by
    rw [jsMathRound]
    apply Int.floor_nonneg.mpr
    linarith
  have hfu : jsMathRound (total * 100) ≤ 10000 := by
    rw [jsMathRound]
    have harg : total * 100 + 1 / 2 ≤ 10000 + 1 / 2 := by linarith
    calc ⌊total * 100 + 1 / 2⌋ ≤ ⌊(10000 : ℚ) + 1 / 2⌋ := Int.floor_le_floor harg
      _ = 10000 := by norm_num
  unfold calculateRowScore
  rw [← htot]
  constructor
  · positivity
  · rw [div_le_iff₀ (by norm_num : (0 : ℚ) < 100)]
    calc (jsMathRound (total * 100) : ℚ) ≤ 10000 := by exact_mod_cast hfu
      _ = 100 * 100 := by norm_num

/-- C10 witness: a concrete one-column configuration (weight 100, value
importance 25) gives a score inside `[0, 100]`. -/
theorem calculateRowScore_bounds_witness :
    0 ≤ calculateRowScore ["A"] ⟨["A"], [("A", 100)], [("A", [("X", 25)])], ""⟩
        ["X"] ∧
      calculateRowScore ["A"] ⟨["A"], [("A", 100)], [("A", [("X", 25)])], ""⟩
        ["X"] ≤ 100 :=
  calculateRowScore_bounds ["A"] ⟨["A"], [("A", 100)], [("A", [("X", 25)])], ""⟩
    ["X"] (by decide) (by decide) (by decide)

/-! ## C2 -/

/-- C2 counterexample: removing column `"A"` from a state carrying a
per-value importance entry for `"A"` does not delete that entry, so the
claim that `removeColumn` deletes all of the header's value-weight
entries is false. -/
theorem removeColumn_counterexample :
    ¬ ((removeColumn ⟨["A", "B"], [("A", 50), ("B", 50)], [("A", [("X", 100)])], ""⟩
        "A").subcategoryWeights.lookup "A" = none) := by
  decide

/-- C2 (amended): removing a header from the included columns deletes its
column-weight entry and drops it from the included set, but leaves the
per-value importance (value-weight) entries untouched. -/
theorem removeColumn_spec (st : ScoringState) (header : String) :
    (removeColumn st header).weights.lookup header = none ∧
      header ∉ (removeColumn st header).includedColumns ∧
      (removeColumn st header).subcategoryWeights = st.subcategoryWeights := by
  refine ⟨lookup_filter_not_beq st.weights header, ?_, rfl⟩
  simp [removeColumn]

/-! ## C3 -/

/-- Looking up the `i`-th key in the association list built from
`enumFrom k` of a duplicate-free key list yields the value computed at
index `k + i`. -/
theorem lookup_enumFrom_map {β : Type} (f : ℕ → β) :
    ∀ (cols : List String) (k : ℕ), cols.Nodup → ∀ (i : ℕ) (hi : i < cols.length),
      ((cols.enumFrom k).map (fun p => (p.2, f p.1))).lookup (cols.get ⟨i, hi⟩) =
        some (f (k + i)) := by
  intro cols
  induction cols with
  | nil => intro k _ i hi; exact absurd hi (by simp)
  | cons c t ih =>
    intro k hnd i hi
    match i with
    | 0 => simp [List.enumFrom, List.lookup]
    | i + 1 =>
      have hmem : t.get ⟨i, by simpa using hi⟩ ∈ t := List.get_mem _ _ _
      have hne : (t.get ⟨i, by simpa using hi⟩ == c) = false := by
        simp only [beq_eq_false_iff_ne, ne_eq]
        intro hEq
        exact (List.nodup_cons.mp hnd).1 (hEq ▸ hmem)
      have harith : k + 1 + i = k + (i + 1) := by omega
      have := ih (k + 1) (List.nodup_cons.mp hnd).2 i (by simpa using hi)
      rw [harith] at this
      simp only [List.enumFrom, List.map_cons, List.get_cons_succ, List.lookup]
      rw [hne]
      exact this

/-- The sum of the redistribution values over `enumFrom k` with `k ≥ 1`
(so no entry receives the remainder) is `length * equalWeight`. -/
theorem sum_enumFrom_redistribute (eq0 rem : ℤ) :
    ∀ (t : List String) (k : ℕ), k ≠ 0 →
      (((t.enumFrom k).map (fun p => (p.2, eq0 + if p.1 = 0 then rem else 0))).map
          (fun p => p.2)).sum = t.length * eq0 := by
  intro t
  induction t with
  | nil => intro k _; simp
  | cons c t ih =>
    intro k hk
    have := ih (k + 1) (Nat.succ_ne_zero k)
    simp only [List.enumFrom, List.map_cons, List.sum_cons, this, hk, if_neg hk,
      List.length_cons]
    push_cast
    ring

/-- C3: whenever the included-column set (duplicate-free, non-empty)
changes, the redistribution effect gives every included column the weight
`floor(100 / n)`, except that the column at inclusion index 0 additionally
receives the remainder `100 - floor(100 / n) * n`; for every `n ≤ 20`
(indeed for every `n ≥ 1`) the weights sum to exactly 100. -/
theorem redistributeWeights_spec (cols : List String) (hne : cols ≠ [])
    (hnodup : cols.Nodup) :
    (∀ (i : ℕ) (hi : i < cols.length),
        (redistributeWeights cols).lookup (cols.get ⟨i, hi⟩) =
          some (100 / (cols.length : ℤ) +
            if i = 0 then 100 - 100 / (cols.length : ℤ) * cols.length else 0)) ∧
      (cols.length ≤ 20 →
        ((redistributeWeights cols).map (fun p => p.2)).sum = 100) := by
  constructor
  · intro i hi
    have := lookup_enumFrom_map
      (fun idx => 100 / (cols.length : ℤ) +
        if idx = 0 then 100 - 100 / (cols.length : ℤ) * cols.length else 0)
      cols 0 hnodup i hi
    simpa [redistributeWeights, List.enum] using this
  · intro _
    obtain ⟨c, t, rfl⟩ : ∃ c t, cols = c :: t := by
      cases cols with
      | nil => exact absurd rfl hne
      | cons c t => exact ⟨c, t, rfl⟩
    simp only [redistributeWeights, List.enum, List.enumFrom, List.map_cons,
      List.sum_cons, reduceIte]
    rw [sum_enumFrom_redistribute _ _ t 1 one_ne_zero]
    have hlen : (((c :: t).length : ℕ) : ℤ) = (t.length : ℤ) + 1 := by
      simp
    rw [hlen]
    ring

/-- C3 witness: three included columns get weights 34/33/33 summing to
100. -/
theorem redistributeWeights_spec_witness :
    (redistributeWeights ["A", "B", "C"]).lookup "A" = some 34 ∧
      ((redistributeWeights ["A", "B", "C"]).map (fun p => p.2)).sum = 100 := by
  have h := redistributeWeights_spec ["A", "B", "C"] (by decide) (by decide)
  refine ⟨?_, h.2 (by decide)⟩
  have h0 := h.1 0 (by decide)
  simpa using h0

/-! ## C7 -/

/-- C7: on a table with exactly one column, `deleteColumn` is a refused
no-op — headers, rows and widths are unchanged. -/
theorem deleteColumn_single_column_noop (g : GridState) (i : ℕ)
    (h : g.headers.length = 1) : deleteColumn g i = g := by
  simp [deleteColumn, h]

/-- C7 witness. -/
theorem deleteColumn_single_column_noop_witness :
    deleteColumn (GridState.mk ["A"] [["x"], ["y"]] [150]) 0 =
      GridState.mk ["A"] [["x"], ["y"]] [150] :=
  deleteColumn_single_column_noop _ 0 rfl

/-! ## C8 -/

/-- C8: select-all clears the selection when its size equals the row
count, and otherwise selects every row index in `[0, rows.length)`. -/
theorem selectAllRows_spec (sel : Finset ℕ) (rows : List (List String)) :
    (sel.card = rows.length → selectAllRows sel rows = ∅) ∧
      (sel.card ≠ rows.length → selectAllRows sel rows = Finset.range rows.length) := by
  constructor <;> intro h <;> simp [selectAllRows, h]

/-- C8 witness. -/
theorem selectAllRows_spec_witness :
    selectAllRows {0, 1} [["a"], ["b"]] = ∅ ∧
      selectAllRows {0} [["a"], ["b"]] = Finset.range 2 :=
  ⟨(selectAllRows_spec {0, 1} [["a"], ["b"]]).1 (by decide),
   (selectAllRows_spec {0} [["a"], ["b"]]).2 (by decide)⟩
